import Mathlib

/-!
Verification of the sequence source + playback state machine of
`studioqt/imagesequence.py` (class `ImageSequence`), via a shallow embedding.

Modelling conventions:
* Python `int` is `ℤ`; `len` is `List.length`.
* The Qt timer is `Option Bool`: `none` = no `QTimer` object has been created
  yet (`self._timer is None`), `some b` = a timer exists and `b` tells whether
  it is active. `timer.stop()` on a `none` timer raises `AttributeError` in
  Python; operations that can raise return the post-mutation state paired with
  an `Option PyErr` (Python applies the mutations made before the raise).
* The in-memory archive (`self._bytes`, a `BytesIO` holding a zip) is modelled
  by its entry map `List (String × List ℕ)`; a fresh/empty buffer is `[]`.
  `self._bytes_read` (the `ZipFile(self._bytes, 'r')` handle) is
  `Option (List (String × List ℕ))`, `none` when the handle is `None`.
* The filesystem and the zip/file/dir classification predicates are an
  explicit environment `FileSystem` (the code consumes `is_zipfile`,
  `os.path.isfile`, `os.path.isdir`, `os.listdir`, zip entry enumeration and
  file reads from the outside world).
* `percent` returns `Option ℚ`: `none` models the `ZeroDivisionError` raised
  by `float(len + frame) / len - 1` when `len(self._frames) == 0`, and exact
  rational arithmetic stands in for Python floats.
* The `frameChanged` Qt signal is modelled by returning the list of emitted
  payloads alongside the new state.
* Python's Unicode-aware `str.isdigit` and `int()` are modelled on the
  character universe used in this development: on ASCII they are exactly the
  `[0-9]` tests, and the Arabic-Indic digits U+0660-U+0669 are isdigit-true
  decimal digits with values 0-9; other characters are treated as
  non-digits.
* `list.sort(key=...)` raises `TypeError` when a performed key comparison
  mixes `int` with `str`; `naturalSortItems` therefore returns an `Option`,
  `none` modelling that raise.
-/

/-- A token of the natural-sort key: the result of
`convert = lambda text: int(text) if text.isdigit() else text` applied to one
piece of `re.split('([0-9]+)', key)`.  String pieces are kept as `List Char`. -/
inductive Token where
  | str : List Char → Token
  | num : ℕ → Token
deriving DecidableEq, Repr

def Token.isStr : Token → Bool
  | .str _ => true
  | .num _ => false

def Token.isNum : Token → Bool
  | .str _ => false
  | .num _ => true

/-- Three-way comparison on `ℕ`, as Python compares two `int`s. -/
def natCmp (a b : ℕ) : Ordering :=
  if a < b then .lt else if b < a then .gt else .eq

/-- Three-way comparison of two characters by code point, as Python compares
characters inside `str < str`. -/
def charCmp (a b : Char) : Ordering :=
  natCmp a.toNat b.toNat

/-- Lexicographic three-way comparison of two strings (as lists of chars) by
code point: Python's `str` comparison. -/
def strCmpL : List Char → List Char → Ordering
  | [], [] => .eq
  | [], _ :: _ => .lt
  | _ :: _, [] => .gt
  | a :: as, b :: bs =>
    match charCmp a b with
    | .eq => strCmpL as bs
    | o => o

/-- Python comparison of two key tokens: `int` vs `int` and `str` vs `str`
compare normally; a mixed pair raises `TypeError`, modelled as `none`. -/
def tokenCmp : Token → Token → Option Ordering
  | .str a, .str b => some (strCmpL a b)
  | .num a, .num b => some (natCmp a b)
  | _, _ => none

/-- Python comparison of two keys (lists of tokens): element-wise with the
prefix rule (a strict prefix is smaller); the first mixed-type element pair
raises `TypeError` (`none`). -/
def keyCmp : List Token → List Token → Option Ordering
  | [], [] => some .eq
  | [], _ :: _ => some .lt
  | _ :: _, [] => some .gt
  | a :: as, b :: bs =>
    match tokenCmp a b with
    | none => none
    | some .eq => keyCmp as bs
    | some .lt => some .lt
    | some .gt => some .gt

/-- The decimal value Python's `int()` assigns to a single character, on the
character universe of this development: the ASCII digits `[0-9]` (values
`0`-`9`) and the Arabic-Indic digits U+0660-U+0669 (values `0`-`9`, per the
Unicode tables Python consults).  Characters outside this universe are
treated as non-digits; every statement below either restricts its strings to
ASCII or uses only characters of the universe. -/
def pyDigitVal (c : Char) : Option ℕ :=
  if c.isDigit then some (c.toNat - 48)
  else if 1632 ≤ c.toNat ∧ c.toNat ≤ 1641 then some (c.toNat - 1632)
  else none

/-- Python's per-character `str.isdigit`, on the modelled character
universe: true exactly on the characters `int()` accepts as decimal digits.
On ASCII this is exactly the regex's `[0-9]`; the Arabic-Indic digits are
isdigit-true although `[0-9]` does not match them. -/
def pyIsdigitChar (c : Char) : Bool :=
  (pyDigitVal c).isSome

/-- `text.isdigit()` of Python: nonempty and all characters digit. -/
def pyIsdigit (g : List Char) : Bool :=
  !g.isEmpty && g.all pyIsdigitChar

/-- `int(text)` on a run of decimal digits. -/
def toNatD (g : List Char) : ℕ :=
  g.foldl (fun n c => 10 * n + (pyDigitVal c).getD 0) 0

/-- `convert = lambda text: int(text) if text.isdigit() else text`. -/
def pyConvert (g : List Char) : Token :=
  if pyIsdigit g then .num (toNatD g) else .str g

/-- Prepend a char to the first group of a group list. -/
def consHead (c : Char) : List (List Char) → List (List Char)
  | [] => [[c]]
  | g :: gs => (c :: g) :: gs

/-- `re.split('([0-9]+)', s)` on the chars of `s`, generalized by the class
(`isDig`) of the run currently being read: the result alternates maximal
non-digit runs (even positions, possibly empty) with maximal digit runs (odd
positions), starting with the continuation of a run of class `isDig` and
always ending with a (possibly empty) non-digit piece.  The top-level call is
`splitRuns false s`. -/
def splitRuns : Bool → List Char → List (List Char)
  | isDig, [] => if isDig then [[], []] else [[]]
  | isDig, c :: cs =>
    if c.isDigit = isDig then consHead c (splitRuns isDig cs)
    else [] :: consHead c (splitRuns c.isDigit cs)

/-- `alphanum_key = lambda key: [convert(c) for c in re.split('([0-9]+)', key)]`. -/
def alphanumKey (s : String) : List Token :=
  (splitRuns false s.data).map pyConvert

/-- One sorted-insertion step of the stable sort, with Python's error
behavior: every performed key comparison that mixes `int` with `str`
(`keyCmp = none`) raises `TypeError`, propagated as `none`. -/
def keyInsert (x : String) : List String → Option (List String)
  | [] => some [x]
  | y :: ys =>
    match keyCmp (alphanumKey x) (alphanumKey y) with
    | none => none
    | some .gt =>
      match keyInsert x ys with
      | none => none
      | some r => some (y :: r)
    | some _ => some (x :: y :: ys)

/-- `naturalSortItems`: `items.sort(key=alphanum_key)` — a stable
comparison sort by the natural-sort key (Python's Timsort modelled by
stable insertion sort), returning `none` when a performed key comparison
mixes `int` with `str` and Python's sort raises `TypeError`.  On lists whose
keys are pairwise comparable (in particular on ASCII identifiers) every
stable comparison sort, Timsort included, performs no mixed comparison and
yields this same result. -/
def naturalSortItems : List String → Option (List String)
  | [] => some []
  | x :: xs =>
    match naturalSortItems xs with
    | none => none
    | some r => keyInsert x r

/-- The key order `a <= b` on identifiers: the key of `a` does not compare
greater than the key of `b`.  Used to state sortedness; on identifiers with
pairwise-comparable keys it is the total, transitive order the sort
produces. -/
def natLe (a b : String) : Prop :=
  keyCmp (alphanumKey a) (alphanumKey b) ≠ some .gt

instance : DecidableRel natLe := fun a b =>
  inferInstanceAs
    (Decidable (keyCmp (alphanumKey a) (alphanumKey b) ≠ some .gt))

/-- The in-place `items.sort(key=alphanum_key)` as the path setters consume
it, on the domain where no comparison raises: the total stable insertion
sort by `natLe`.  Whenever `naturalSortItems` succeeds it returns exactly
this list; on inputs where Python would raise `TypeError` mid-sort (leaving
the list in an unspecified partially-sorted state), this total completion
stands in for that unspecified result — no theorem below concerns the
ordering of such frame lists. -/
def naturalSortTotal (items : List String) : List String :=
  List.insertionSort natLe items

/-- The parts of the outside world the code consumes: `zipfile.is_zipfile`,
`os.path.isfile`, `os.path.isdir`, `os.listdir`, the entry names and raw
bytes of a zip archive, and raw file reads (image decoding is opaque; a frame
"pixmap" is identified with the raw bytes handed to the decoder, `none` when
obtaining them fails). -/
structure FileSystem where
  isZip : String → Bool
  isFile : String → Bool
  isDir : String → Bool
  listDir : String → List String
  zipData : String → List (String × List ℕ)
  readFile : String → Option (List ℕ)

/-- A Python exception escaping one of the modelled methods. -/
inductive PyErr where
  | attributeError : PyErr
deriving DecidableEq, Repr

/-- The state of an `ImageSequence` object; defaults are the `__init__`
field values (`DEFAULT_FPS = 24`, `self._timer = None`, `self._frame = 0`,
`self._frames = []`, `self._dirname = None`, `self._paused = False`,
`self._bytes = BytesIO()`, `self._bytes_read = None`). -/
structure ImageSequence where
  fps : ℤ := 24
  timer : Option Bool := none
  frame : ℤ := 0
  frames : List String := []
  dirnameVal : Option String := none
  pausedFlag : Bool := false
  bytes : List (String × List ℕ) := []
  bytesRead : Option (List (String × List ℕ)) := none
deriving DecidableEq, Repr

/-- `firstFrame`: the first frame path, or the empty-string sentinel. -/
def ImageSequence.firstFrame (s : ImageSequence) : String :=
  match s.frames with
  | f :: _ => f
  | [] => ""

/-- `frames`: accessor for `self._frames`. -/
def ImageSequence.framesList (s : ImageSequence) : List String :=
  s.frames

/-- `frameCount`: `len(self._frames)`. -/
def ImageSequence.frameCount (s : ImageSequence) : ℕ :=
  s.frames.length

/-- `dirname`: returns `self._dirname` (possibly `None`). -/
def ImageSequence.dirname (s : ImageSequence) : Option String :=
  s.dirnameVal

/-- `setZipfile(zip_sequence)`: records the path in `self._dirname`, sets
`self._frames` to the archive's entry names, appends every entry's bytes to
the in-memory buffer (`ZipFile(self._bytes, 'a')` appends to the existing
`BytesIO`), opens the read handle on that buffer, then natural-sorts the
frame list in place.  `self._frame` is not touched. -/
def ImageSequence.setZipfile (fs : FileSystem) (path : String)
    (s : ImageSequence) : ImageSequence :=
  let entries := fs.zipData path
  let buf := s.bytes ++ entries
  { s with
    dirnameVal := some path
    frames := naturalSortTotal (entries.map Prod.fst)
    bytes := buf
    bytesRead := some buf }

/-- `setDirname(dirname)`: records the path in `self._dirname`; if it is a
directory, lists its immediate children as `dirname + "/" + name` and
natural-sorts them.  `self._frame` is not touched. -/
def ImageSequence.setDirname (fs : FileSystem) (dirname : String)
    (s : ImageSequence) : ImageSequence :=
  let s1 := { s with dirnameVal := some dirname }
  if fs.isDir dirname then
    { s1 with
      frames := naturalSortTotal ((fs.listDir dirname).map
        (fun name => dirname ++ "/" ++ name)) }
  else s1

/-- `setPath(path)`: dispatches on the classification of `path`
(zip / ordinary file / directory); a path matching none of the three leaves
the object untouched. -/
def ImageSequence.setPath (fs : FileSystem) (path : String)
    (s : ImageSequence) : ImageSequence :=
  if fs.isZip path then s.setZipfile fs path
  else if fs.isFile path then { s with frame := 0, frames := [path] }
  else if fs.isDir path then s.setDirname fs path
  else s

/-- `__init__(path)`: default fields, then `setPath(path)` when `path` is
truthy (the empty string models a falsy path). -/
def ImageSequence.init (fs : FileSystem) (path : String) : ImageSequence :=
  if path ≠ "" then ImageSequence.setPath fs path {} else {}

/-- `reset()`: creates the (stopped) timer on first use, then — unless
paused — closes and replaces the byte buffer, clears the read handle and
resets `self._frame` to `0`; finally stops the timer. -/
def ImageSequence.reset (s : ImageSequence) : ImageSequence :=
  let s1 := if s.timer = none then { s with timer := some false } else s
  let s2 :=
    if s1.pausedFlag then s1
    else { s1 with bytes := [], bytesRead := none, frame := 0 }
  { s2 with timer := some false }

/-- `pause()`: sets `self._paused = True`, then `self._timer.stop()`
(an `AttributeError` if no timer was ever created; the flag is already set
when it is raised). -/
def ImageSequence.pause (s : ImageSequence) : ImageSequence × Option PyErr :=
  let s1 := { s with pausedFlag := true }
  match s1.timer with
  | none => (s1, some .attributeError)
  | some _ => ({ s1 with timer := some false }, none)

/-- `paused()`: accessor for `self._paused`. -/
def ImageSequence.paused (s : ImageSequence) : Bool :=
  s.pausedFlag

/-- `resume()`: when paused, clears the flag and restarts the timer
(`AttributeError` if no timer exists; the flag is already cleared). -/
def ImageSequence.resume (s : ImageSequence) : ImageSequence × Option PyErr :=
  if s.pausedFlag then
    let s1 := { s with pausedFlag := false }
    match s1.timer with
    | none => (s1, some .attributeError)
    | some _ => ({ s1 with timer := some true }, none)
  else (s, none)

/-- `stop()`: closes and replaces the byte buffer, clears the read handle,
then `self._timer.stop()` (an `AttributeError` if no timer exists; the
buffer is already released when it is raised). -/
def ImageSequence.stop (s : ImageSequence) : ImageSequence × Option PyErr :=
  let s1 := { s with bytes := [], bytesRead := none }
  match s1.timer with
  | none => (s1, some .attributeError)
  | some _ => ({ s1 with timer := some false }, none)

/-- `start()`: `reset()`, then re-resolve the recorded source path if any
(`if self._dirname:` — `None` and the empty string are falsy), then start the
timer (which `reset` just created) at the configured interval. -/
def ImageSequence.start (fs : FileSystem) (s : ImageSequence) : ImageSequence :=
  let s1 := s.reset
  let s2 :=
    match s1.dirnameVal with
    | some d => if d ≠ "" then s1.setPath fs d else s1
    | none => s1
  match s2.timer with
  | some _ => { s2 with timer := some true }
  | none => s2

/-- `jumpToFrame(frame)`: single wraparound to `0` when
`frame >= self.frameCount()`, store the result in `self._frame`, emit
`frameChanged` with the new value.  Returns the new state and the list of
emitted signal payloads. -/
def ImageSequence.jumpToFrame (s : ImageSequence) (frame : ℤ) :
    ImageSequence × List ℤ :=
  let f := if (s.frameCount : ℤ) ≤ frame then 0 else frame
  ({ s with frame := f }, [f])

/-- `_frameChanged()` (the timer tick): no-op on an empty frame list,
otherwise `jumpToFrame(self._frame + 1)`. -/
def ImageSequence.frameChangedTick (s : ImageSequence) :
    ImageSequence × List ℤ :=
  if s.frames.isEmpty then (s, [])
  else s.jumpToFrame (s.frame + 1)

/-- `percent()`: `1` when `len(self._frames) == self._frame + 1`, otherwise
`float(len(self._frames) + self._frame) / len(self._frames) - 1`; the latter
raises `ZeroDivisionError` (`none`) when the frame list is empty. -/
def ImageSequence.percent (s : ImageSequence) : Option ℚ :=
  if (s.frames.length : ℤ) = s.frame + 1 then some 1
  else if s.frames.length = 0 then none
  else some (((s.frames.length : ℚ) + (s.frame : ℚ)) / (s.frames.length : ℚ) - 1)

/-- `currentFrameNumber()`: `self._frame`. -/
def ImageSequence.currentFrameNumber (s : ImageSequence) : ℤ :=
  s.frame

/-- Python sequence indexing `l[i]` with negative indices counting from the
end and `IndexError` as `none`. -/
def pyIndex (l : List String) (i : ℤ) : Option String :=
  if 0 ≤ i then l.get? i.toNat
  else if 0 ≤ i + l.length then l.get? (i + l.length).toNat
  else none

/-- `currentFilename()`: `self._frames[self.currentFrameNumber()]`, with
`IndexError` caught and turned into `None`. -/
def ImageSequence.currentFilename (s : ImageSequence) : Option String :=
  pyIndex s.frames s.frame

/-- `currentPixmap()` up to the opaque decoding step: the raw bytes handed to
the decoder.  When `self._dirname` is truthy and a zip, reads the current
entry from the in-memory read handle (`none` models the `AttributeError` on a
`None` handle and the failure of `read` on a missing/`None` name); otherwise
the bytes come from the file named by `currentFilename()`. -/
def ImageSequence.currentPixmapBytes (fs : FileSystem) (s : ImageSequence) :
    Option (List ℕ) :=
  match s.dirnameVal with
  | some d =>
    if d ≠ "" ∧ fs.isZip d = true then
      match s.bytesRead with
      | none => none
      | some buf =>
        match s.currentFilename with
        | none => none
        | some f => buf.lookup f
    else s.currentFilename.bind fs.readFile
  | none => s.currentFilename.bind fs.readFile

/-- A fresh `ImageSequence()` whose constructor received a falsy path. -/
def freshSeq : ImageSequence := {}

/-- A state holding a one-frame sequence. -/
def seqLoaded : ImageSequence := { frames := ["a"] }

/-- A three-frame sequence positioned on the middle frame. -/
def seqABC : ImageSequence := { frames := ["a", "b", "c"], frame := 1 }

/-- An environment in which no path is a zip, a file or a directory. -/
def fsNone : FileSystem :=
  { isZip := fun _ => false, isFile := fun _ => false, isDir := fun _ => false,
    listDir := fun _ => [], zipData := fun _ => [], readFile := fun _ => none }

/-- An environment in which `"a.png"` is an ordinary file. -/
def fsFileOnly : FileSystem :=
  { fsNone with isFile := fun p => p == "a.png" }

/-- An environment in which `"seq.zip"` is a zip with two entries. -/
def fsZipOnly : FileSystem :=
  { fsNone with
    isZip := fun p => p == "seq.zip"
    zipData := fun p => if p == "seq.zip" then [("b.png", [2]), ("a.png", [1])] else [] }

/-- An environment in which `"imgs"` is a directory of three files. -/
def fsDirOnly : FileSystem :=
  { fsNone with
    isDir := fun p => p == "imgs"
    listDir := fun p => if p == "imgs" then ["f2", "f10", "f1"] else [] }

/-- A running, paused, archive-backed state. -/
def seqZipped : ImageSequence :=
  { frames := ["a.png"], dirnameVal := some "seq.zip", timer := some true,
    pausedFlag := true, bytes := [("a.png", [7])], bytesRead := some [("a.png", [7])] }

/-- No character of the group is an ASCII digit. -/
def NoDig (g : List Char) : Prop := ∀ c ∈ g, c.isDigit = false

/-- Every character of the group is an ASCII digit. -/
def AllDig (g : List Char) : Prop := ∀ c ∈ g, c.isDigit = true

/-- Well-formedness of a `re.split('([0-9]+)', _)` result: non-digit pieces at
even positions (possibly empty), nonempty digit runs at odd positions, and the
list ends with a non-digit piece. -/
inductive RWF : List (List Char) → Prop
  | base (g : List Char) (hg : NoDig g) : RWF [g]
  | step (g d : List Char) (gs : List (List Char)) (hg : NoDig g)
      (hd : AllDig d) (hne : d ≠ []) (h : RWF gs) : RWF (g :: d :: gs)

/-- Well-formedness of a natural-sort key: string tokens at even positions,
integer tokens at odd positions, and the key ends with a string token. -/
inductive KeyWF : List Token → Prop
  | base (a : List Char) : KeyWF [Token.str a]
  | step (a : List Char) (n : ℕ) (ts : List Token) (h : KeyWF ts) :
      KeyWF (Token.str a :: Token.num n :: ts)

theorem natCmp_eq_iff {a b : ℕ} : natCmp a b = .eq ↔ a = b := by
  unfold natCmp; split_ifs <;> simp <;> omega

theorem natCmp_lt_iff {a b : ℕ} : natCmp a b = .lt ↔ a < b := by
  unfold natCmp; split_ifs <;> simp <;> omega

theorem natCmp_swap (a b : ℕ) : natCmp b a = (natCmp a b).swap := by
  unfold natCmp; split_ifs <;> simp [Ordering.swap] <;> omega

theorem charCmp_eq {a b : Char} (h : charCmp a b = .eq) : a = b :=
  Char.eq_of_val_eq (UInt32.ext (natCmp_eq_iff.mp h))

theorem charCmp_lt_iff {a b : Char} : charCmp a b = .lt ↔ a.toNat < b.toNat :=
  natCmp_lt_iff

theorem charCmp_swap (a b : Char) : charCmp b a = (charCmp a b).swap :=
  natCmp_swap _ _

theorem strCmpL_eq : ∀ {a b : List Char}, strCmpL a b = .eq → a = b
  | [], [], _ => rfl
  | [], _ :: _, h => by simp [strCmpL] at h
  | _ :: _, [], h => by simp [strCmpL] at h
  | a :: as, b :: bs, h => by
    unfold strCmpL at h
    rcases hc : charCmp a b with _ | _ | _ <;> rw [hc] at h
    · exact absurd h (by simp)
    · rw [charCmp_eq hc, strCmpL_eq h]
    · exact absurd h (by simp)

theorem strCmpL_refl : ∀ (a : List Char), strCmpL a a = .eq
  | [] => rfl
  | c :: cs => by
    have : charCmp c c = .eq := natCmp_eq_iff.mpr rfl
    unfold strCmpL; rw [this, strCmpL_refl cs]

theorem strCmpL_swap : ∀ (a b : List Char), strCmpL b a = (strCmpL a b).swap
  | [], [] => rfl
  | [], _ :: _ => rfl
  | _ :: _, [] => rfl
  | a :: as, b :: bs => by
    unfold strCmpL
    rw [charCmp_swap a b]
    rcases hc : charCmp a b with _ | _ | _ <;>
      first
      | rfl
      | exact strCmpL_swap as bs

theorem strCmpL_lt_trans :
    ∀ {a b c : List Char}, strCmpL a b = .lt → strCmpL b c = .lt →
      strCmpL a c = .lt
  | [], [], _, h1, _ => by simp [strCmpL] at h1
  | [], _ :: _, [], _, h2 => by simp [strCmpL] at h2
  | [], _ :: _, _ :: _, _, _ => rfl
  | _ :: _, [], _, h1, _ => by simp [strCmpL] at h1
  | _ :: _, _ :: _, [], _, h2 => by simp [strCmpL] at h2
  | a :: as, b :: bs, c :: cs, h1, h2 => by
    unfold strCmpL at h1 h2 ⊢
    rcases hab : charCmp a b with _ | _ | _ <;> rw [hab] at h1
    · rcases hbc : charCmp b c with _ | _ | _ <;> rw [hbc] at h2
      · have hac : charCmp a c = .lt := by
          rw [charCmp_lt_iff] at hab hbc ⊢; omega
        rw [hac]
      · obtain rfl := charCmp_eq hbc
        rw [hab]
      · exact absurd h2 (by simp)
    · obtain rfl := charCmp_eq hab
      have h1' : strCmpL as bs = .lt := h1
      rcases hbc : charCmp a c with _ | _ | _ <;> rw [hbc] at h2 <;>
        first
        | rfl
        | exact strCmpL_lt_trans h1' h2
        | exact absurd h2 (by simp)
    · exact absurd h1 (by simp)

theorem tokenCmp_eq : ∀ {t u : Token}, tokenCmp t u = some .eq → t = u
  | .str a, .str b, h => by
    rw [strCmpL_eq (Option.some.inj h)]
  | .num a, .num b, h => by
    rw [natCmp_eq_iff.mp (Option.some.inj h)]
  | .str _, .num _, h => by simp [tokenCmp] at h
  | .num _, .str _, h => by simp [tokenCmp] at h

theorem tokenCmp_refl : ∀ (t : Token), tokenCmp t t = some .eq
  | .str a => by rw [tokenCmp, strCmpL_refl]
  | .num a => by rw [tokenCmp, natCmp_eq_iff.mpr rfl]

theorem tokenCmp_swap :
    ∀ (t u : Token), tokenCmp u t = (tokenCmp t u).map Ordering.swap
  | .str a, .str b => by rw [tokenCmp, tokenCmp, strCmpL_swap]; rfl
  | .num a, .num b => by rw [tokenCmp, tokenCmp, natCmp_swap]; rfl
  | .str _, .num _ => rfl
  | .num _, .str _ => rfl

theorem tokenCmp_lt_trans :
    ∀ {t u v : Token}, tokenCmp t u = some .lt → tokenCmp u v = some .lt →
      tokenCmp t v = some .lt
  | .str a, .str b, .str c, h1, h2 => by
    rw [tokenCmp] at h1 h2 ⊢
    rw [strCmpL_lt_trans (Option.some.inj h1) (Option.some.inj h2)]
  | .num a, .num b, .num c, h1, h2 => by
    rw [tokenCmp] at h1 h2 ⊢
    have ha := natCmp_lt_iff.mp (Option.some.inj h1)
    have hb := natCmp_lt_iff.mp (Option.some.inj h2)
    rw [natCmp_lt_iff.mpr (by omega)]
  | .str _, .num _, _, h1, _ => by simp [tokenCmp] at h1
  | .num _, .str _, _, h1, _ => by simp [tokenCmp] at h1
  | .num _, .num _, .str _, _, h2 => by simp [tokenCmp] at h2
  | .str _, .str _, .num _, _, h2 => by simp [tokenCmp] at h2

theorem keyCmp_eq : ∀ {a b : List Token}, keyCmp a b = some .eq → a = b
  | [], [], _ => rfl
  | [], _ :: _, h => by simp [keyCmp] at h
  | _ :: _, [], h => by simp [keyCmp] at h
  | x :: as, y :: bs, h => by
    unfold keyCmp at h
    rcases ht : tokenCmp x y with _ | o <;> rw [ht] at h
    · exact absurd h (by simp)
    · cases o with
      | lt => exact absurd h (by simp)
      | eq => rw [tokenCmp_eq ht, keyCmp_eq h]
      | gt => exact absurd h (by simp)

theorem keyCmp_swap : ∀ (a b : List Token),
    keyCmp b a = (keyCmp a b).map Ordering.swap
  | [], [] => rfl
  | [], _ :: _ => rfl
  | _ :: _, [] => rfl
  | x :: as, y :: bs => by
    unfold keyCmp
    rw [tokenCmp_swap x y]
    rcases ht : tokenCmp x y with _ | o
    · rfl
    · cases o with
      | lt => rfl
      | eq => exact keyCmp_swap as bs
      | gt => rfl

theorem keyCmp_lt_trans :
    ∀ {a b c : List Token}, keyCmp a b = some .lt → keyCmp b c = some .lt →
      keyCmp a c = some .lt
  | [], [], _, h1, _ => by simp [keyCmp] at h1
  | [], _ :: _, [], _, h2 => by simp [keyCmp] at h2
  | [], _ :: _, _ :: _, _, _ => rfl
  | _ :: _, [], _, h1, _ => by simp [keyCmp] at h1
  | _ :: _, _ :: _, [], _, h2 => by simp [keyCmp] at h2
  | x :: as, y :: bs, z :: cs, h1, h2 => by
    unfold keyCmp at h1 h2 ⊢
    rcases hxy : tokenCmp x y with _ | oxy <;> rw [hxy] at h1
    · exact absurd h1 (by simp)
    · cases oxy with
      | lt =>
        rcases hyz : tokenCmp y z with _ | oyz <;> rw [hyz] at h2
        · exact absurd h2 (by simp)
        · cases oyz with
          | lt => rw [tokenCmp_lt_trans hxy hyz]
          | eq => obtain rfl := tokenCmp_eq hyz; rw [hxy]
          | gt => exact absurd h2 (by simp)
      | eq =>
        obtain rfl := tokenCmp_eq hxy
        have h1' : keyCmp as bs = some .lt := h1
        rcases hyz : tokenCmp x z with _ | oyz <;> rw [hyz] at h2
        · exact absurd h2 (by simp)
        · cases oyz with
          | lt => rfl
          | eq => exact keyCmp_lt_trans h1' h2
          | gt => exact absurd h2 (by simp)
      | gt => exact absurd h1 (by simp)

theorem keyCmp_isSome {a b : List Token} (ha : KeyWF a) (hb : KeyWF b) :
    (keyCmp a b).isSome = true := by
  induction ha generalizing b with
  | base x =>
    cases hb with
    | base y =>
      rcases h : strCmpL x y with _ | _ | _ <;>
        simp [keyCmp, tokenCmp, h]
    | step y m ts hts =>
      rcases h : strCmpL x y with _ | _ | _ <;>
        simp [keyCmp, tokenCmp, h]
  | step x n ts hts ih =>
    cases hb with
    | base y =>
      rcases h : strCmpL x y with _ | _ | _ <;>
        simp [keyCmp, tokenCmp, h]
    | step y m ts2 hts2 =>
      rcases h : strCmpL x y with _ | _ | _ <;>
        simp only [keyCmp, tokenCmp, h]
      · simp
      · rcases h2 : natCmp n m with _ | _ | _ <;> simp [h2]
        exact ih hts2
      · simp

theorem RWF_consHead {l : List (List Char)} (h : RWF l) {c : Char}
    (hc : c.isDigit = false) : RWF (consHead c l) := by
  cases h with
  | base g hg =>
    exact RWF.base (c :: g) (by
      intro x hx
      rcases List.mem_cons.mp hx with rfl | hx
      · exact hc
      · exact hg x hx)
  | step g d gs hg hd hne h2 =>
    exact RWF.step (c :: g) d gs (by
      intro x hx
      rcases List.mem_cons.mp hx with rfl | hx
      · exact hc
      · exact hg x hx) hd hne h2

theorem splitRuns_wf : ∀ cs : List Char,
    RWF (splitRuns false cs) ∧
    ∃ d gs, splitRuns true cs = d :: gs ∧ AllDig d ∧ RWF gs
  | [] => by
    refine ⟨RWF.base [] (by intro x hx; simp at hx), [], [[]], rfl, ?_, ?_⟩
    · intro x hx; simp at hx
    · exact RWF.base [] (by intro x hx; simp at hx)
  | c :: cs => by
    obtain ⟨ih1, d, gs, hsplit, hd, hgs⟩ := splitRuns_wf cs
    by_cases hc : c.isDigit = true
    · constructor
      · show RWF (splitRuns false (c :: cs))
        unfold splitRuns
        rw [hc]
        simp only [Bool.true_eq_false, if_false, hsplit, consHead]
        exact RWF.step [] (c :: d) gs (by intro x hx; simp at hx)
          (by
            intro x hx
            rcases List.mem_cons.mp hx with rfl | hx
            · exact hc
            · exact hd x hx)
          (by simp) hgs
      · refine ⟨c :: d, gs, ?_, ?_, hgs⟩
        · unfold splitRuns
          rw [hc]
          simp only [if_true, hsplit, consHead]
        · intro x hx
          rcases List.mem_cons.mp hx with rfl | hx
          · exact hc
          · exact hd x hx
    · rw [Bool.not_eq_true] at hc
      constructor
      · show RWF (splitRuns false (c :: cs))
        unfold splitRuns
        rw [hc]
        simp only [if_true]
        exact RWF_consHead ih1 hc
      · show ∃ d2 gs2, splitRuns true (c :: cs) = d2 :: gs2 ∧ AllDig d2 ∧ RWF gs2
        refine ⟨[], consHead c (splitRuns false cs), ?_, ?_, RWF_consHead ih1 hc⟩
        · simp only [splitRuns]
          rw [hc]
          simp
        · intro x hx; simp at hx

theorem pyConvert_noDig {g : List Char} (hg : NoDig g)
    (ha : ∀ c ∈ g, c.toNat < 128) : pyConvert g = Token.str g := by
  unfold pyConvert pyIsdigit
  cases g with
  | nil => simp
  | cons c cs =>
    have hc : pyIsdigitChar c = false := by
      unfold pyIsdigitChar pyDigitVal
      have h1 := hg c (List.mem_cons_self _ _)
      have h2 := ha c (List.mem_cons_self _ _)
      rw [if_neg (by rw [h1]; exact Bool.false_ne_true),
        if_neg (by omega)]
      rfl
    simp [hc]

theorem pyConvert_allDig {g : List Char} (hd : AllDig g) (hne : g ≠ []) :
    pyConvert g = Token.num (toNatD g) := by
  unfold pyConvert pyIsdigit
  cases g with
  | nil => exact absurd rfl hne
  | cons c cs =>
    have hall : (c :: cs).all pyIsdigitChar = true := by
      rw [List.all_eq_true]
      intro x hx
      have hx2 := hd x hx
      unfold pyIsdigitChar pyDigitVal
      rw [if_pos hx2]
      rfl
    simp [hall]

theorem consHead_mem {a c : Char} {g : List Char} {l : List (List Char)}
    (hg : g ∈ consHead a l) (hc : c ∈ g) :
    c = a ∨ ∃ g2, g2 ∈ l ∧ c ∈ g2 := by
  cases l with
  | nil =>
    simp only [consHead, List.mem_singleton] at hg
    subst hg
    simp only [List.mem_singleton] at hc
    exact Or.inl hc
  | cons g0 gs =>
    simp only [consHead, List.mem_cons] at hg
    rcases hg with rfl | hg
    · rcases List.mem_cons.mp hc with rfl | hc2
      · exact Or.inl rfl
      · exact Or.inr ⟨g0, List.mem_cons_self _ _, hc2⟩
    · exact Or.inr ⟨g, List.mem_cons_of_mem _ hg, hc⟩

theorem splitRuns_mem : ∀ (b : Bool) (cs : List Char) (g : List Char),
    g ∈ splitRuns b cs → ∀ c ∈ g, c ∈ cs
  | b, [], g, hg, c, hc => by
    cases b <;> simp [splitRuns] at hg <;> subst hg <;> simp at hc
  | b, a :: cs, g, hg, c, hc => by
    simp only [splitRuns] at hg
    by_cases hd : a.isDigit = b
    · rw [if_pos hd] at hg
      rcases consHead_mem hg hc with rfl | ⟨g2, hg2, hc2⟩
      · exact List.mem_cons_self _ _
      · exact List.mem_cons_of_mem _ (splitRuns_mem b cs g2 hg2 c hc2)
    · rw [if_neg hd] at hg
      rcases List.mem_cons.mp hg with rfl | hg2
      · simp at hc
      · rcases consHead_mem hg2 hc with rfl | ⟨g2, hg2b, hc2⟩
        · exact List.mem_cons_self _ _
        · exact List.mem_cons_of_mem _
            (splitRuns_mem a.isDigit cs g2 hg2b c hc2)

theorem keyWF_of_RWF : ∀ {gs : List (List Char)}, RWF gs →
    (∀ g ∈ gs, ∀ c ∈ g, c.toNat < 128) → KeyWF (gs.map pyConvert)
  | _, RWF.base g hg, ha => by
    rw [List.map_cons, List.map_nil,
      pyConvert_noDig hg (ha g (List.mem_cons_self _ _))]
    exact KeyWF.base g
  | _, RWF.step g d gs hg hd hne h, ha => by
    rw [List.map_cons, List.map_cons,
      pyConvert_noDig hg (ha g (List.mem_cons_self _ _)),
      pyConvert_allDig hd hne]
    exact KeyWF.step g (toNatD d) (gs.map pyConvert)
      (keyWF_of_RWF h (fun g2 hg2 =>
        ha g2 (List.mem_cons_of_mem _ (List.mem_cons_of_mem _ hg2))))

theorem alphanumKey_wf (s : String) (hs : ∀ c ∈ s.data, c.toNat < 128) :
    KeyWF (alphanumKey s) :=
  keyWF_of_RWF (splitRuns_wf s.data).1
    (fun g hg c hc => hs c (splitRuns_mem false s.data g hg c hc))

theorem natLe_total {a b : String} (ha : KeyWF (alphanumKey a))
    (hb : KeyWF (alphanumKey b)) : natLe a b ∨ natLe b a := by
  have h := keyCmp_isSome ha hb
  rcases ho : keyCmp (alphanumKey a) (alphanumKey b) with _ | o
  · rw [ho] at h; exact absurd h (by simp)
  · cases o with
    | lt => exact Or.inl (by unfold natLe; rw [ho]; simp)
    | eq => exact Or.inl (by unfold natLe; rw [ho]; simp)
    | gt =>
      refine Or.inr ?_
      unfold natLe
      rw [keyCmp_swap (alphanumKey a) (alphanumKey b), ho]
      simp [Ordering.swap]

theorem natLe_trans {a b c : String} (ha : KeyWF (alphanumKey a))
    (hb : KeyWF (alphanumKey b)) (hc : KeyWF (alphanumKey c))
    (h1 : natLe a b) (h2 : natLe b c) : natLe a c := by
  have hsab := keyCmp_isSome ha hb
  have hsbc := keyCmp_isSome hb hc
  rcases hab : keyCmp (alphanumKey a) (alphanumKey b) with _ | oab
  · rw [hab] at hsab; exact absurd hsab (by simp)
  · rcases hbc : keyCmp (alphanumKey b) (alphanumKey c) with _ | obc
    · rw [hbc] at hsbc; exact absurd hsbc (by simp)
    · cases oab with
      | gt => exact absurd hab h1
      | eq =>
        have heq := keyCmp_eq hab
        unfold natLe at h2 ⊢
        rw [heq]
        exact h2
      | lt =>
        cases obc with
        | gt => exact absurd hbc h2
        | eq =>
          have heq := keyCmp_eq hbc
          unfold natLe at h1 ⊢
          rw [← heq]
          exact h1
        | lt =>
          unfold natLe
          rw [keyCmp_lt_trans hab hbc]
          simp

theorem keyInsert_perm : ∀ {x : String} {ys r : List String},
    keyInsert x ys = some r → List.Perm r (x :: ys)
  | x, [], r, h => by
    simp only [keyInsert, Option.some.injEq] at h
    subst h
    exact List.Perm.refl _
  | x, y :: ys, r, h => by
    simp only [keyInsert] at h
    rcases hc : keyCmp (alphanumKey x) (alphanumKey y) with _ | o <;>
      rw [hc] at h
    · exact absurd h (by simp)
    · cases o with
      | gt =>
        rcases hr : keyInsert x ys with _ | r2 <;> rw [hr] at h
        · exact absurd h (by simp)
        · obtain rfl : y :: r2 = r := Option.some.inj h
          exact ((keyInsert_perm hr).cons y).trans (List.Perm.swap x y ys)
      | lt =>
        obtain rfl : x :: y :: ys = r := Option.some.inj h
        exact List.Perm.refl _
      | eq =>
        obtain rfl : x :: y :: ys = r := Option.some.inj h
        exact List.Perm.refl _

theorem keyInsert_isSome : ∀ {x : String} {ys : List String},
    KeyWF (alphanumKey x) → (∀ y ∈ ys, KeyWF (alphanumKey y)) →
    (keyInsert x ys).isSome = true
  | _, [], _, _ => rfl
  | x, y :: ys, hx, hys => by
    simp only [keyInsert]
    have hs := keyCmp_isSome hx (hys y (List.mem_cons_self _ _))
    rcases hc : keyCmp (alphanumKey x) (alphanumKey y) with _ | o
    · rw [hc] at hs; exact absurd hs (by simp)
    · cases o with
      | gt =>
        have ih := keyInsert_isSome hx
          (fun z hz => hys z (List.mem_cons_of_mem _ hz))
        rcases hr : keyInsert x ys with _ | r2
        · rw [hr] at ih; exact absurd ih (by simp)
        · rfl
      | lt => rfl
      | eq => rfl

theorem keyInsert_sorted : ∀ {x : String} {ys r : List String},
    KeyWF (alphanumKey x) → (∀ y ∈ ys, KeyWF (alphanumKey y)) →
    List.Pairwise natLe ys → keyInsert x ys = some r →
    List.Pairwise natLe r
  | x, [], r, _, _, _, h => by
    simp only [keyInsert, Option.some.injEq] at h
    subst h
    simp
  | x, y :: ys, r, hx, hys, hp, h => by
    simp only [keyInsert] at h
    have hy := hys y (List.mem_cons_self _ _)
    obtain ⟨hyall, hpys⟩ := List.pairwise_cons.mp hp
    rcases hc : keyCmp (alphanumKey x) (alphanumKey y) with _ | o <;>
      rw [hc] at h
    · exact absurd h (by simp)
    · cases o with
      | gt =>
        rcases hr : keyInsert x ys with _ | r2 <;> rw [hr] at h
        · exact absurd h (by simp)
        · obtain rfl : y :: r2 = r := Option.some.inj h
          refine List.pairwise_cons.mpr ⟨?_, keyInsert_sorted hx
            (fun z hz => hys z (List.mem_cons_of_mem _ hz)) hpys hr⟩
          intro z hz
          rcases List.mem_cons.mp ((keyInsert_perm hr).mem_iff.mp hz)
            with heq | hzys
          · unfold natLe
            rw [heq, keyCmp_swap (alphanumKey x) (alphanumKey y), hc]
            simp [Ordering.swap]
          · exact hyall z hzys
      | lt =>
        obtain rfl : x :: y :: ys = r := Option.some.inj h
        have hxy : natLe x y := by unfold natLe; rw [hc]; simp
        refine List.pairwise_cons.mpr ⟨?_, hp⟩
        intro z hz
        rcases List.mem_cons.mp hz with rfl | hzys
        · exact hxy
        · exact natLe_trans hx hy (hys z (List.mem_cons_of_mem _ hzys))
            hxy (hyall z hzys)
      | eq =>
        obtain rfl : x :: y :: ys = r := Option.some.inj h
        have hxy : natLe x y := by unfold natLe; rw [hc]; simp
        refine List.pairwise_cons.mpr ⟨?_, hp⟩
        intro z hz
        rcases List.mem_cons.mp hz with rfl | hzys
        · exact hxy
        · exact natLe_trans hx hy (hys z (List.mem_cons_of_mem _ hzys))
            hxy (hyall z hzys)

theorem naturalSortItems_wf : ∀ {l : List String},
    (∀ s ∈ l, KeyWF (alphanumKey s)) →
    ∃ r, naturalSortItems l = some r ∧ List.Perm r l ∧ List.Pairwise natLe r
  | [], _ => ⟨[], rfl, List.Perm.refl _, List.Pairwise.nil⟩
  | x :: xs, h => by
    obtain ⟨r, hr, hperm, hpair⟩ := naturalSortItems_wf
      (fun s hs => h s (List.mem_cons_of_mem _ hs))
    have hx := h x (List.mem_cons_self _ _)
    have hrwf : ∀ y ∈ r, KeyWF (alphanumKey y) := fun y hy =>
      h y (List.mem_cons_of_mem _ (hperm.mem_iff.mp hy))
    have hsome := keyInsert_isSome hx hrwf
    rcases hki : keyInsert x r with _ | r2
    · rw [hki] at hsome; exact absurd hsome (by simp)
    · refine ⟨r2, ?_, ?_, keyInsert_sorted hx hrwf hpair hki⟩
      · simp only [naturalSortItems, hr]
        exact hki
      · exact (keyInsert_perm hki).trans (hperm.cons x)

theorem keyInsert_eq_orderedInsert : ∀ {x : String} {ys r : List String},
    keyInsert x ys = some r → r = List.orderedInsert natLe x ys
  | x, [], r, h => by
    simp only [keyInsert, Option.some.injEq] at h
    rw [← h]
    rfl
  | x, y :: ys, r, h => by
    simp only [keyInsert] at h
    simp only [List.orderedInsert]
    rcases hc : keyCmp (alphanumKey x) (alphanumKey y) with _ | o <;>
      rw [hc] at h
    · exact absurd h (by simp)
    · cases o with
      | gt =>
        rcases hr : keyInsert x ys with _ | r2 <;> rw [hr] at h
        · exact absurd h (by simp)
        · obtain rfl : y :: r2 = r := Option.some.inj h
          rw [if_neg (fun hn => hn hc), ← keyInsert_eq_orderedInsert hr]
      | lt =>
        obtain rfl : x :: y :: ys = r := Option.some.inj h
        rw [if_pos (show natLe x y by unfold natLe; rw [hc]; simp)]
      | eq =>
        obtain rfl : x :: y :: ys = r := Option.some.inj h
        rw [if_pos (show natLe x y by unfold natLe; rw [hc]; simp)]

theorem naturalSortItems_eq_total : ∀ {l r : List String},
    naturalSortItems l = some r → r = naturalSortTotal l
  | [], r, h => by
    simp only [naturalSortItems, Option.some.injEq] at h
    rw [← h]
    rfl
  | x :: xs, r, h => by
    simp only [naturalSortItems] at h
    rcases hr : naturalSortItems xs with _ | r2 <;> rw [hr] at h
    · exact absurd h (by simp)
    · have h2 := keyInsert_eq_orderedInsert h
      have h3 := naturalSortItems_eq_total hr
      unfold naturalSortTotal at h3 ⊢
      simp only [List.insertionSort]
      rw [← h3]
      exact h2

theorem keyWF_positions : ∀ {ts : List Token}, KeyWF ts → ∀ i : ℕ,
    (i % 2 = 0 → (ts.getD i (Token.str [])).isStr = true) ∧
    (i % 2 = 1 → i < ts.length → (ts.getD i (Token.str [])).isNum = true)
  | _, KeyWF.base a, i => by
    constructor
    · intro _
      match i with
      | 0 => rfl
      | n + 1 => simp [List.getD, Token.isStr]
    · intro hodd hlen
      simp only [List.length_cons, List.length_nil] at hlen
      omega
  | _, KeyWF.step a n ts h, i => by
    match i with
    | 0 => exact ⟨fun _ => rfl, fun hodd _ => by omega⟩
    | 1 => exact ⟨fun heven => by omega, fun _ _ => rfl⟩
    | j + 2 =>
      obtain ⟨ih1, ih2⟩ := keyWF_positions h j
      constructor
      · intro heven
        have : j % 2 = 0 := by omega
        simpa [List.getD_cons_succ] using ih1 this
      · intro hodd hlen
        have hj : j % 2 = 1 := by omega
        have : j < ts.length := by
          simp only [List.length_cons] at hlen
          omega
        simpa [List.getD_cons_succ] using ih2 hj this

/-- Claim C1: for every sequence state and every integer `i`, `jumpToFrame(i)`
sets `currentIndex` to `0` when `i >= frameCount()` (single wraparound) and to
`i` otherwise, and emits exactly one `frameChanged` notification carrying the
new value of `currentIndex`; in particular `jumpToFrame(frameCount())` leaves
`currentIndex == 0`. -/
theorem jumpToFrame_wrap_emit (s : ImageSequence) (i : ℤ) :
    ((s.jumpToFrame i).1.frame = if (s.frameCount : ℤ) ≤ i then 0 else i)
    ∧ (s.jumpToFrame i).2 = [(s.jumpToFrame i).1.frame]
    ∧ (s.jumpToFrame (s.frameCount : ℤ)).1.frame = 0 := by
  refine ⟨rfl, rfl, ?_⟩
  simp [ImageSequence.jumpToFrame]

/-- Claim C2 (code bug): on the empty sequence, `jumpToFrame` completes
(wrapping to `0`, one emission) and `currentFilename` yields `None`, but
`percent` raises `ZeroDivisionError` (modelled by `none`): with
`self._frames == []` and `self._frame == 0` the guard `0 == 0 + 1` fails and
the code evaluates `float(0 + 0) / 0 - 1`. -/
theorem percent_empty_division_raises :
    freshSeq.frameCount = 0
    ∧ (freshSeq.jumpToFrame 1).1.frame = 0
    ∧ (freshSeq.jumpToFrame 1).2 = [0]
    ∧ freshSeq.currentFilename = none
    ∧ freshSeq.percent = none := by
  decide

/-- Claim C3: for every state with `frameCount() > 0` and
`0 <= currentIndex < frameCount()`, `percent()` is exactly `1` on the last
frame and otherwise equals `(frameCount() + currentIndex) / frameCount() - 1`,
a value in `[0, 1)` equal to `currentIndex / frameCount()` in exact rational
arithmetic. -/
theorem percent_boundary (s : ImageSequence) (hpos : 0 < s.frameCount)
    (h0 : 0 ≤ s.frame) (hlt : s.frame < (s.frameCount : ℤ)) :
    (s.frame = (s.frameCount : ℤ) - 1 → s.percent = some 1)
    ∧ (s.frame ≠ (s.frameCount : ℤ) - 1 →
        s.percent =
          some (((s.frameCount : ℚ) + (s.frame : ℚ)) / (s.frameCount : ℚ) - 1)
        ∧ ((s.frameCount : ℚ) + (s.frame : ℚ)) / (s.frameCount : ℚ) - 1
            = (s.frame : ℚ) / (s.frameCount : ℚ)
        ∧ 0 ≤ (s.frame : ℚ) / (s.frameCount : ℚ)
        ∧ (s.frame : ℚ) / (s.frameCount : ℚ) < 1) := by
  unfold ImageSequence.percent ImageSequence.frameCount at *
  have hQ : (0 : ℚ) < (s.frames.length : ℚ) := by exact_mod_cast hpos
  constructor
  · intro hlast
    have hcond : (s.frames.length : ℤ) = s.frame + 1 := by omega
    rw [if_pos hcond]
  · intro hne
    have hcond : ¬ (s.frames.length : ℤ) = s.frame + 1 := by omega
    have hzero : ¬ s.frames.length = 0 := by omega
    rw [if_neg hcond, if_neg hzero]
    have hformula :
        ((s.frames.length : ℚ) + (s.frame : ℚ)) / (s.frames.length : ℚ) - 1
          = (s.frame : ℚ) / (s.frames.length : ℚ) := by
      field_simp
    refine ⟨rfl, hformula, ?_, ?_⟩
    · apply div_nonneg _ (le_of_lt hQ)
      exact_mod_cast h0
    · rw [div_lt_one hQ]
      exact_mod_cast hlt

/-- Witness for C3 at the concrete state `{frames := ["a","b","c"],
frame := 1}`. -/
theorem percent_boundary_witness :
    seqABC.percent =
      some (((seqABC.frameCount : ℚ) + (seqABC.frame : ℚ))
        / (seqABC.frameCount : ℚ) - 1)
    ∧ (seqABC.frame : ℚ) / (seqABC.frameCount : ℚ) < 1 := by
  have h := (percent_boundary seqABC (by decide) (by decide) (by decide)).2
    (by decide)
  exact ⟨h.1, h.2.2.2⟩

/-- Counterexample to claim C4 as stated: for the identifiers `["٣", "a"]`
(U+0663, the Arabic-Indic digit three) the sort produces no order at all —
`alphanum_key("٣")` is `[int 3]` (`"٣".isdigit()` is true), the key
comparison against `["a"]`'s key mixes `int` with `str`, and Python's sort
raises `TypeError` (`none`), so "every list of string identifiers" fails. -/
theorem naturalSortItems_unicode_counterexample :
    naturalSortItems ["٣", "a"] = none := by
  decide

/-- Claim C4 (amended): for every list of identifiers whose characters are
ASCII (where `str.isdigit` coincides with the regex's `[0-9]`),
`naturalSortItems` succeeds and produces the total order that compares keys
element-wise — digit runs by numeric value, other runs by ordinary string
order; in particular `["f2","f10","f1"]` yields `["f1","f2","f10"]`, not the
lexicographic order.  On identifiers containing non-ASCII digit characters
the key comparison can mix `int` with `str` and the sort raises `TypeError`
instead of producing an order. -/
theorem naturalSortItems_ascii_sorted :
    (∀ l : List String, (∀ s ∈ l, ∀ c ∈ s.data, c.toNat < 128) →
      ∃ r, naturalSortItems l = some r
        ∧ List.Perm r l
        ∧ List.Pairwise natLe r)
    ∧ (∀ a b : String, (∀ c ∈ a.data, c.toNat < 128) →
        (∀ c ∈ b.data, c.toNat < 128) → natLe a b ∨ natLe b a)
    ∧ naturalSortItems ["f2", "f10", "f1"] = some ["f1", "f2", "f10"] := by
  refine ⟨?_, ?_, by decide⟩
  · intro l hl
    exact naturalSortItems_wf (fun s hs => alphanumKey_wf s (hl s hs))
  · intro a b ha hb
    exact natLe_total (alphanumKey_wf a ha) (alphanumKey_wf b hb)

/-- Witness for the amended C4 at the concrete list `["f2","f10","f1"]` and
the pair `"f2"`, `"f10"`. -/
theorem naturalSortItems_ascii_sorted_witness :
    (∃ r, naturalSortItems ["f2", "f10", "f1"] = some r
      ∧ List.Perm r ["f2", "f10", "f1"]
      ∧ List.Pairwise natLe r)
    ∧ (natLe "f2" "f10" ∨ natLe "f10" "f2") :=
  ⟨naturalSortItems_ascii_sorted.1 ["f2", "f10", "f1"] (by decide),
   naturalSortItems_ascii_sorted.2.1 "f2" "f10" (by decide) (by decide)⟩

/-- Counterexample to claim C5 as stated: from a state already holding one
frame, `setPath` on a path that is neither zip nor file nor directory leaves
the old frame list in place, so `frameCount()` is not `0`. -/
theorem setPath_unmatched_counterexample :
    (ImageSequence.setPath fsNone "bogus" seqLoaded).frameCount ≠ 0 := by
  decide

/-- Claim C5 (amended): `setPath` on a path matching none of the three kinds
is a silent no-op: the whole state (in particular the frame list) is left
unchanged and nothing is raised; a sequence that was empty before the call is
still empty afterwards (`frameCount() == 0`). -/
theorem setPath_unmatched_noop (fs : FileSystem) (path : String)
    (s : ImageSequence) (hz : fs.isZip path = false)
    (hf : fs.isFile path = false) (hd : fs.isDir path = false) :
    ImageSequence.setPath fs path s = s
    ∧ (s.frameCount = 0 → (ImageSequence.setPath fs path s).frameCount = 0) := by
  have hs : ImageSequence.setPath fs path s = s := by
    unfold ImageSequence.setPath
    rw [hz, hf, hd]
    simp
  exact ⟨hs, fun h => by rw [hs]; exact h⟩

/-- Witness for the amended C5 at a concrete environment and state. -/
theorem setPath_unmatched_noop_witness :
    ImageSequence.setPath fsNone "bogus" seqLoaded = seqLoaded :=
  (setPath_unmatched_noop fsNone "bogus" seqLoaded rfl rfl rfl).1

/-- Claim C6: `stop()` unconditionally (whatever the paused flag) empties the
in-memory archive buffer, clears the read handle and halts the timer, while
leaving `currentIndex`, the frame list and the paused flag unchanged; after
`stop()` an archive-backed frame read cannot reuse the released buffer — it
fails (`none`) instead of returning stale bytes. -/
theorem stop_releases_and_halts (s : ImageSequence) :
    (s.stop.1.bytes = [] ∧ s.stop.1.bytesRead = none
      ∧ s.stop.1.timer ≠ some true
      ∧ s.stop.1.frame = s.frame ∧ s.stop.1.frames = s.frames
      ∧ s.stop.1.pausedFlag = s.pausedFlag)
    ∧ ∀ (fs : FileSystem) (d : String), s.stop.1.dirnameVal = some d →
        d ≠ "" → fs.isZip d = true →
        ImageSequence.currentPixmapBytes fs s.stop.1 = none := by
  constructor
  · cases ht : s.timer <;> simp [ImageSequence.stop, ht]
  · intro fs d hd hz hne
    have hbr : s.stop.1.bytesRead = none := by
      cases ht : s.timer <;> simp [ImageSequence.stop, ht]
    unfold ImageSequence.currentPixmapBytes
    rw [hd, hbr]
    simp [hz, hne]

/-- Witness for C6 at a paused, running, archive-backed state. -/
theorem stop_releases_and_halts_witness :
    ImageSequence.currentPixmapBytes fsZipOnly
      (ImageSequence.stop seqZipped).1 = none :=
  (stop_releases_and_halts seqZipped).2 fsZipOnly "seq.zip" rfl (by decide)
    (by decide)

/-- Claim C7: `reset()` halts the timer in every state; when the paused flag
is false it also releases the archive buffer, clears the read handle and
resets `currentIndex` to `0`, and when paused it leaves all three unchanged —
so pause, then reset, then resume continues from the same frame with the same
buffered archive bytes. -/
theorem reset_behavior (s : ImageSequence) :
    s.reset.timer = some false
    ∧ s.reset.bytes = (if s.pausedFlag then s.bytes else [])
    ∧ s.reset.bytesRead = (if s.pausedFlag then s.bytesRead else none)
    ∧ s.reset.frame = (if s.pausedFlag then s.frame else 0)
    ∧ s.reset.frames = s.frames
    ∧ (s.pause.1.reset.resume.1.frame = s.frame
       ∧ s.pause.1.reset.resume.1.bytes = s.bytes
       ∧ s.pause.1.reset.resume.1.bytesRead = s.bytesRead) := by
  cases hp : s.pausedFlag <;> cases ht : s.timer <;>
    simp [ImageSequence.reset, ImageSequence.pause, ImageSequence.resume,
      hp, ht]

/-- Counterexample to claim C8 as stated: `setPath` resolving to a single
ordinary file succeeds (the frame list becomes that file) but does not record
the path — `dirname()` still returns `None`. -/
theorem setPath_file_dirname_counterexample :
    (ImageSequence.setPath fsFileOnly "a.png" freshSeq).frames = ["a.png"]
    ∧ (ImageSequence.setPath fsFileOnly "a.png" freshSeq).dirname
        ≠ some "a.png"
    ∧ (ImageSequence.setPath fsFileOnly "a.png" freshSeq).dirname = none := by
  decide

/-- Claim C8 (amended): `dirname()` returns the path passed to the most
recent `setZipfile` or `setDirname` (also when reached through `setPath`);
`setPath` resolving to a single ordinary file leaves `dirname()` unchanged
instead of recording the path. -/
theorem dirname_records_last_setter (fs : FileSystem) (p : String)
    (s : ImageSequence) :
    (ImageSequence.setZipfile fs p s).dirname = some p
    ∧ (ImageSequence.setDirname fs p s).dirname = some p
    ∧ (fs.isZip p = true → (ImageSequence.setPath fs p s).dirname = some p)
    ∧ (fs.isZip p = false → fs.isFile p = false → fs.isDir p = true →
        (ImageSequence.setPath fs p s).dirname = some p)
    ∧ (fs.isZip p = false → fs.isFile p = true →
        (ImageSequence.setPath fs p s).dirname = s.dirname) := by
  refine ⟨rfl, ?_, ?_, ?_, ?_⟩
  · unfold ImageSequence.setDirname ImageSequence.dirname
    by_cases h : fs.isDir p <;> simp [h]
  · intro hz
    simp [ImageSequence.setPath, hz, ImageSequence.setZipfile,
      ImageSequence.dirname]
  · intro hz hf hd
    simp [ImageSequence.setPath, hz, hf, hd, ImageSequence.setDirname,
      ImageSequence.dirname]
  · intro hz hf
    simp [ImageSequence.setPath, hz, hf, ImageSequence.dirname]

/-- Witness for the amended C8: a directory path is recorded; a single-file
path leaves the previous value in place. -/
theorem dirname_records_last_setter_witness :
    (ImageSequence.setPath fsDirOnly "imgs" freshSeq).dirname = some "imgs"
    ∧ (ImageSequence.setPath fsFileOnly "a.png" seqLoaded).dirname
        = seqLoaded.dirname :=
  ⟨(dirname_records_last_setter fsDirOnly "imgs" freshSeq).2.2.2.1
      rfl rfl (by decide),
   (dirname_records_last_setter fsFileOnly "a.png" seqLoaded).2.2.2.2
      rfl (by decide)⟩

/-- Counterexample to claim C9 as stated: on a non-empty sequence the integer
argument `-1` passes the `frame >= frameCount()` check unchanged, so
`jumpToFrame(-1)` stores `-1`, violating `0 <= currentIndex`. -/
theorem jumpToFrame_negative_counterexample :
    seqLoaded.frames ≠ []
    ∧ (seqLoaded.jumpToFrame (-1)).1.frame < 0 := by
  decide

/-- Claim C9 (amended): for every non-empty sequence and every non-negative
integer argument, `jumpToFrame` leaves `currentIndex` inside
`[0, frameCount())`; a negative argument is stored unchanged, so the
invariant holds only for non-negative arguments. -/
theorem jumpToFrame_nonneg_invariant (s : ImageSequence) (i : ℤ)
    (hne : s.frames ≠ []) (hi : 0 ≤ i) :
    0 ≤ (s.jumpToFrame i).1.frame
    ∧ (s.jumpToFrame i).1.frame < (s.frameCount : ℤ) := by
  have hpos : 0 < s.frames.length := List.length_pos.mpr hne
  unfold ImageSequence.jumpToFrame ImageSequence.frameCount
  dsimp only
  split_ifs with h <;> constructor <;> omega

/-- Witness for the amended C9 at a one-frame sequence and argument `5`. -/
theorem jumpToFrame_nonneg_invariant_witness :
    0 ≤ (seqLoaded.jumpToFrame 5).1.frame
    ∧ (seqLoaded.jumpToFrame 5).1.frame < (seqLoaded.frameCount : ℤ) :=
  jumpToFrame_nonneg_invariant seqLoaded 5 (by decide) (by decide)

/-- Counterexample to claim C10 as stated: for the input string `"٣"`
(U+0663) the even position `0` of the key is not a string — `"٣".isdigit()`
is true although `[0-9]` does not match it, so `convert` turns the whole
even-position piece into `int 3` — and the element-wise comparison against
the key of `"a"` mixes `int` with `str`, the `TypeError` Python raises when
sorting such identifiers. -/
theorem alphanumKey_unicode_counterexample :
    ((alphanumKey "٣").getD 0 (Token.str [])).isStr = false
    ∧ keyCmp (alphanumKey "٣") (alphanumKey "a") = none := by
  decide

/-- Claim C10 (amended): for every string whose characters are ASCII (where
`str.isdigit` coincides with the regex's `[0-9]`), the key has (possibly
empty) string tokens at even positions and integer tokens (digit runs
converted) at odd positions, and for any two such strings the element-wise
key comparison is defined (no Python `TypeError`), so `naturalSortItems`
never raises a type error on lists of ASCII identifiers.  A string that is
entirely a non-ASCII digit run converts to an integer at an even position,
and comparing its key with an ordinary key raises `TypeError`. -/
theorem alphanumKey_ascii_no_mixed :
    (∀ s : String, (∀ c ∈ s.data, c.toNat < 128) → ∀ i : ℕ,
      (i % 2 = 0 → ((alphanumKey s).getD i (Token.str [])).isStr = true)
      ∧ (i % 2 = 1 → i < (alphanumKey s).length →
          ((alphanumKey s).getD i (Token.str [])).isNum = true))
    ∧ ∀ a b : String, (∀ c ∈ a.data, c.toNat < 128) →
        (∀ c ∈ b.data, c.toNat < 128) →
        (keyCmp (alphanumKey a) (alphanumKey b)).isSome = true :=
  ⟨fun s hs i => keyWF_positions (alphanumKey_wf s hs) i,
   fun a b ha hb => keyCmp_isSome (alphanumKey_wf a ha) (alphanumKey_wf b hb)⟩

/-- Witness for the amended C10 on the key of `"f10"` and the pair `"f2"`,
`"f10"`. -/
theorem alphanumKey_ascii_no_mixed_witness :
    ((alphanumKey "f10").getD 0 (Token.str [])).isStr = true
    ∧ ((alphanumKey "f10").getD 1 (Token.str [])).isNum = true
    ∧ (keyCmp (alphanumKey "f2") (alphanumKey "f10")).isSome = true :=
  ⟨(alphanumKey_ascii_no_mixed.1 "f10" (by decide) 0).1 rfl,
   (alphanumKey_ascii_no_mixed.1 "f10" (by decide) 1).2 rfl (by decide),
   alphanumKey_ascii_no_mixed.2 "f2" "f10" (by decide) (by decide)⟩
